import Mathlib

/-!
# Verification of the Modbus RTU simulator frame core

Shallow embedding of the protocol core of `modbus_simulator_gui.py`:
the CRC16 engine (`modbus_crc16`), the request frame builders
(`log_modbus_frame` branches), the raw frame composer/validator
(`send_raw_command`), the register bank text rules (`pad_hex_input`,
`clear_all_registers`), the result handler (`handle_register_result`)
and the settings writer (`save_settings`).

Python strings are modelled as `List Char`, Python ints as `Int`
(or `Nat` where the source value is provably non-negative), and GUI
side effects (register variables, history, log) as explicit state.
-/

deriving instance DecidableEq for Except

namespace MbSim

/-! ## CRC16 engine (`modbus_crc16`, lines 361-372) -/

/-- One iteration of the inner loop of `modbus_crc16`:
`if crc & 0x01: crc = (crc >> 1) ^ 0xA001 else crc = crc >> 1`. -/
def crcBit (crc : Nat) : Nat :=
  if crc &&& 0x01 ≠ 0 then (crc >>> 1) ^^^ 0xA001 else crc >>> 1

/-- Body of the outer loop of `modbus_crc16`: `crc ^= byte` followed by
eight iterations of the inner loop (`for i in range(8)`). -/
def crcByteStep (crc byte : Nat) : Nat :=
  (List.range 8).foldl (fun c _ => crcBit c) (crc ^^^ byte)

/-- `modbus_crc16(data)`: fold the byte loop starting from `0xFFFF`, then
return `(crc >> 8) | (crc << 8)` — exactly as the source, with no 16-bit
mask on the returned value. -/
def modbus_crc16 (data : List Nat) : Nat :=
  let crc := data.foldl crcByteStep 0xFFFF
  (crc >>> 8) ||| (crc <<< 8)

/-! ## Frame builders (`log_modbus_frame`, lines 374-473) -/

/-- Read Holding Registers branch (function code 0x03). -/
def frame_read_holding (slave_id start_idx length : Nat) : List Nat :=
  [slave_id, 0x03,
   (start_idx >>> 8) &&& 0xFF, start_idx &&& 0xFF,
   (length >>> 8) &&& 0xFF, length &&& 0xFF]

/-- Read Input Registers branch (function code 0x04). -/
def frame_read_input (slave_id start_idx length : Nat) : List Nat :=
  [slave_id, 0x04,
   (start_idx >>> 8) &&& 0xFF, start_idx &&& 0xFF,
   (length >>> 8) &&& 0xFF, length &&& 0xFF]

/-- Read Coils branch (function code 0x01). -/
def frame_read_coils (slave_id start_idx length : Nat) : List Nat :=
  [slave_id, 0x01,
   (start_idx >>> 8) &&& 0xFF, start_idx &&& 0xFF,
   (length >>> 8) &&& 0xFF, length &&& 0xFF]

/-- Write Single Register branch (function code 0x06). -/
def frame_write_single (slave_id start_idx value : Nat) : List Nat :=
  [slave_id, 0x06,
   (start_idx >>> 8) &&& 0xFF, start_idx &&& 0xFF,
   (value >>> 8) &&& 0xFF, value &&& 0xFF]

/-- Write Holding Registers branch (function code 0x10): header plus the
high/low bytes of each value. -/
def frame_write_holding (slave_id start_idx length : Nat) (values : List Nat) : List Nat :=
  [slave_id, 0x10,
   (start_idx >>> 8) &&& 0xFF, start_idx &&& 0xFF,
   (length >>> 8) &&& 0xFF, length &&& 0xFF,
   length * 2]
  ++ values.foldr (fun v acc => ((v >>> 8) &&& 0xFF) :: (v &&& 0xFF) :: acc) []

/-- One byte of the coil packing loop of the Write Coils branch:
`byte_val |= (1 << j)` for each `j < 8` with `i + j < length` and
`values[i + j]` truthy.  Indexing is modelled with `getD`; the callers
guarantee `values.length = length`, matching the Python precondition
that indexing does not raise. -/
def packCoilsByte (values : List Bool) (length i : Nat) : Nat :=
  (List.range 8).foldl
    (fun byte_val j =>
      if i + j < length ∧ values.getD (i + j) false then byte_val ||| (1 <<< j)
      else byte_val)
    0

/-- The coil packing loop `for i in range(0, length, 8)` of the Write
Coils branch: `range(0, length, 8)` enumerates `8*k` for
`k < (length + 7) / 8`. -/
def packCoils (values : List Bool) (length : Nat) : List Nat :=
  (List.range ((length + 7) / 8)).map (fun k => packCoilsByte values length (8 * k))

/-- Write Coils branch (function code 0x0F): header, byte count
`(length + 7) // 8`, then the packed coil bytes. -/
def frame_write_coils (slave_id start_idx length : Nat) (values : List Bool) : List Nat :=
  [slave_id, 0x0F,
   (start_idx >>> 8) &&& 0xFF, start_idx &&& 0xFF,
   (length >>> 8) &&& 0xFF, length &&& 0xFF,
   (length + 7) / 8]
  ++ packCoils values length

/-- CRC append step of `log_modbus_frame` (lines 460-466):
`crc_high = crc & 0xFF`, `crc_low = (crc >> 8) & 0xFF`, and the complete
frame is `frame_bytes + [crc_low, crc_high]`. -/
def log_complete_frame (frame_bytes : List Nat) : List Nat :=
  let crc := modbus_crc16 frame_bytes
  let crc_high := crc &&& 0xFF
  let crc_low := (crc >>> 8) &&& 0xFF
  frame_bytes ++ [crc_low, crc_high]

/-- CRC append step of `send_raw_command` (lines 755-759):
`crc_low = crc & 0xFF`, `crc_high = (crc >> 8) & 0xFF`, and the complete
frame is `frame_bytes + [crc_high, crc_low]`. -/
def raw_complete_frame (frame_bytes : List Nat) : List Nat :=
  let crc := modbus_crc16 frame_bytes
  let crc_low := crc &&& 0xFF
  let crc_high := (crc >>> 8) &&& 0xFF
  frame_bytes ++ [crc_high, crc_low]

/-! ## Python string primitives

Python `str` values are modelled as `List Char`.  The helpers below model
the exact library calls the source uses (`str.strip`, `str.split`,
`str.upper`, `str.zfill`, membership `in`, and `int(s, base)`).  The
`int` models cover ASCII inputs without underscore separators, which is
exhaustive for the strings reachable here (raw-command tokens have
exactly two characters, where Python's underscore rules reject every
underscore form as well). -/

/-- Python `str.strip()`: drop whitespace from both ends. -/
def pyStrip (s : List Char) : List Char :=
  ((s.dropWhile Char.isWhitespace).reverse.dropWhile Char.isWhitespace).reverse

/-- Python `str.split()` with no argument: split on whitespace runs and
drop empty pieces. -/
def pySplitWs (s : List Char) : List (List Char) :=
  (s.splitOnP Char.isWhitespace).filter (fun t => t ≠ [])

/-- Python `str.upper()` (ASCII range, which is all the GUI produces). -/
def pyUpper (s : List Char) : List Char :=
  s.map Char.toUpper

/-- Python `str.zfill(n)` for non-signed strings: left-pad with `'0'`. -/
def zfill (n : Nat) (cs : List Char) : List Char :=
  List.replicate (n - cs.length) '0' ++ cs

/-- Value of one hexadecimal digit, case-insensitive, as accepted by
Python `int(_, 16)`. -/
def hexDigitVal? (c : Char) : Option Nat :=
  if '0' ≤ c ∧ c ≤ '9' then some (c.toNat - '0'.toNat)
  else if 'a' ≤ c ∧ c ≤ 'f' then some (c.toNat - 'a'.toNat + 10)
  else if 'A' ≤ c ∧ c ≤ 'F' then some (c.toNat - 'A'.toNat + 10)
  else none

/-- Value of one decimal digit, as accepted by Python `int(_)`. -/
def decDigitVal? (c : Char) : Option Nat :=
  if '0' ≤ c ∧ c ≤ '9' then some (c.toNat - '0'.toNat) else none

/-- Fold a nonempty digit sequence into a number; `none` if any
character is not a digit for the given digit reader or the sequence is
empty. -/
def digitsVal? (digit : Char → Option Nat) (base : Nat) (cs : List Char) : Option Nat :=
  if cs = [] then none
  else cs.foldl
    (fun acc c =>
      match acc, digit c with
      | some a, some d => some (base * a + d)
      | _, _ => none)
    (some 0)

/-- Drop an optional `0x` / `0X` marker, as Python `int(_, 16)` allows
after the sign. -/
def dropHexMarker (cs : List Char) : List Char :=
  match cs with
  | c0 :: c1 :: rest => if c0 = '0' ∧ (c1 = 'x' ∨ c1 = 'X') then rest else cs
  | _ => cs

/-- Python `int(s, 16)`: optional surrounding whitespace, optional sign,
optional `0x`/`0X` marker, then at least one hex digit. -/
def pyInt16? (s : List Char) : Option Int :=
  match pyStrip s with
  | [] => none
  | c :: rest =>
      if c = '+' then (digitsVal? hexDigitVal? 16 (dropHexMarker rest)).map (fun n => (n : Int))
      else if c = '-' then (digitsVal? hexDigitVal? 16 (dropHexMarker rest)).map (fun n => -(n : Int))
      else (digitsVal? hexDigitVal? 16 (dropHexMarker (c :: rest))).map (fun n => (n : Int))

/-- Python `int(s)` (base 10): optional surrounding whitespace, optional
sign, then at least one decimal digit. -/
def pyIntDec? (s : List Char) : Option Int :=
  match pyStrip s with
  | [] => none
  | c :: rest =>
      if c = '+' then (digitsVal? decDigitVal? 10 rest).map (fun n => (n : Int))
      else if c = '-' then (digitsVal? decDigitVal? 10 rest).map (fun n => -(n : Int))
      else (digitsVal? decDigitVal? 10 (c :: rest)).map (fun n => (n : Int))

/-- Python substring test `sub in s`. -/
def strIn (sub s : List Char) : Bool :=
  s.tails.any (fun t => sub.isPrefixOf t)

/-- Python format string `f"0x{value:04X}"`: `0x`, then the uppercase
hex digits of `value` left-padded with zeros to at least 4 characters. -/
def hexFormat04X (v : Nat) : List Char :=
  '0' :: 'x' :: zfill 4 (pyUpper (Nat.toDigits 16 v))

/-! ## Register bank text rules -/

/-- The `pad_hex_input` commit rule (lines 336-359): uppercase, drop a
leading `0X`, keep only the characters of `'0123456789ABCDEF'`, then
normalize: empty to `0x0000`, up to 4 digits zero-padded behind `0x`,
more than 4 digits truncated to the first 4 behind `0x`. -/
def pad_hex_input (current_value : List Char) : List Char :=
  let cur0 := pyUpper current_value
  let cur := if ['0', 'X'].isPrefixOf cur0 then cur0.drop 2 else cur0
  let hex_chars := cur.filter (fun c => "0123456789ABCDEF".toList.contains c)
  if hex_chars.length = 0 then "0x0000".toList
  else if hex_chars.length ≤ 4 then '0' :: 'x' :: zfill 4 hex_chars
  else '0' :: 'x' :: hex_chars.take 4

/-- The register variables: conceptually a map from slot index to its
text; `register_vars` has exactly the keys `0`–`63`, so membership
`reg_addr in self.register_vars` is `reg_addr < 64`.  We carry a total
function and guard every access by that bound, as the source does. -/
def setRegisterVar (vars : Nat → List Char) (addr : Nat) (text : List Char) :
    Nat → List Char :=
  fun r => if r = addr then text else vars r

/-- `clear_all_registers` (lines 691-695): every slot (keys 0-63) is set
to `"0x0000"`. -/
def clear_all_registers (vars : Nat → List Char) : Nat → List Char :=
  fun r => if r < 64 then "0x0000".toList else vars r

/-! ## Result handling (`handle_register_result`, lines 616-689) -/

/-- The register-read update loop (lines 635-642):
`for i, value in enumerate(read_values)` sets slot `start_idx + i` to
`f"0x{value:04X}"` when the slot exists.  Stated as a recursion carrying
the running address. -/
def updateRegistersRead (vars : Nat → List Char) (reg_addr : Nat) :
    List Nat → (Nat → List Char)
  | [] => vars
  | value :: rest =>
      updateRegistersRead
        (if reg_addr < 64 then setRegisterVar vars reg_addr (hexFormat04X value) else vars)
        (reg_addr + 1) rest

/-- The coil-read update loop (lines 643-651): identical, with the bit
converted by `int(value)` before formatting. -/
def updateCoilsRead (vars : Nat → List Char) (reg_addr : Nat) :
    List Bool → (Nat → List Char)
  | [] => vars
  | value :: rest =>
      updateCoilsRead
        (if reg_addr < 64 then
           setRegisterVar vars reg_addr (hexFormat04X (if value then 1 else 0))
         else vars)
        (reg_addr + 1) rest

/-- A log line (message and level); timestamps are wall-clock data and
carry no protocol content. -/
structure LogEntry where
  message : List Char
  level : List Char
deriving DecidableEq

/-- One command-history record.  The `timestamp`, `response_time_ms` and
formatted `command` text are wall-clock/presentation data; the fields
with protocol content are kept. -/
structure HistoryEntry where
  address : Nat
  count : Nat
  values : List Nat
  success : Bool
deriving DecidableEq

/-- The mutable GUI state the result handler touches: register texts,
command history, log. -/
structure AppState where
  registerVars : Nat → List Char
  history : List HistoryEntry
  logs : List LogEntry

/-- `log_message`: append one entry to the log queue. -/
def logMsg (st : AppState) (message level : List Char) : AppState :=
  { st with logs := st.logs ++ [⟨message, level⟩] }

/-- A PyModbus call result as the handler observes it: `isError()`, or a
response carrying `registers` (register reads), or one carrying `bits`
(coil reads).  Write responses carry no values the handler reads; any
non-error constructor stands for them. -/
inductive MBResult where
  | error (msg : List Char)
  | okRegisters (registers : List Nat)
  | okCoils (bits : List Bool)
deriving DecidableEq

/-- `handle_register_result` (lines 616-689).  On `isError()`, only log
lines are emitted (the `hasattr(result, 'exception')` extra line never
fires: our result model has no such attribute).  On success, reads
dispatch on `"Register" in cmd_type` to the register or coil update and
append a success history entry; writes only log and append a success
history entry echoing `values`.  The two mismatch arms (a read whose
result lacks the accessed attribute) would raise in Python and are
unreachable from the callers, which pair the command with its own
result shape. -/
def handle_register_result (st : AppState) (result : MBResult) (cmd_type : List Char)
    (start_idx length : Nat) (is_read : Bool) (values : List Nat) : AppState :=
  match result with
  | .error msg =>
      let st := logMsg st ("Error executing: ".toList ++ msg) "ERROR".toList
      let st := logMsg st "Expected Response: Device should echo back the same frame".toList
        "INFO".toList
      logMsg st "Actual Response: No response received".toList "ERROR".toList
  | .okRegisters read_values =>
      if is_read then
        if strIn "Register".toList cmd_type then
          let st := { st with
            registerVars := updateRegistersRead st.registerVars start_idx read_values }
          let st := logMsg st cmd_type "SUCCESS".toList
          let st := logMsg st "Response Data".toList "INFO".toList
          { st with history := st.history ++
              [⟨start_idx, length, read_values, true⟩] }
        else st
      else
        let st := logMsg st cmd_type "SUCCESS".toList
        let st := logMsg st "Write Response".toList "INFO".toList
        { st with history := st.history ++ [⟨start_idx, length, values, true⟩] }
  | .okCoils read_values =>
      if is_read then
        if strIn "Register".toList cmd_type then st
        else
          let st := { st with
            registerVars := updateCoilsRead st.registerVars start_idx read_values }
          let st := logMsg st cmd_type "SUCCESS".toList
          let st := logMsg st "Response Data".toList "INFO".toList
          { st with history := st.history ++
              [⟨start_idx, length, read_values.map (fun b => if b then 1 else 0), true⟩] }
      else
        let st := logMsg st cmd_type "SUCCESS".toList
        let st := logMsg st "Write Response".toList "INFO".toList
        { st with history := st.history ++ [⟨start_idx, length, values, true⟩] }

/-! ## Write Coils value collection (`execute_register_command`, lines 586-600) -/

/-- Validation failures of the Write Coils value collection loop, each
naming the offending slot. -/
inductive CoilCollectErr where
  | invalidValue (reg_addr : Nat)
  | mustBeZeroOrOne (reg_addr : Nat)
deriving DecidableEq

/-- The Write Coils collection loop: `for i in range(length)`, read slot
`start_idx + i` when it exists, parse its text with base-10 `int`
(`ValueError` reports `Invalid value in register ...`), require the
value to be 0 or 1 (else `must be 0 or 1`), and append `bool(value)`.
Stated as a recursion on the remaining count carrying the running
address. -/
def collectCoilValues (vars : Nat → List Char) (reg_addr : Nat) :
    Nat → Except CoilCollectErr (List Bool)
  | 0 => .ok []
  | n + 1 =>
      if reg_addr < 64 then
        match pyIntDec? (vars reg_addr) with
        | none => .error (.invalidValue reg_addr)
        | some value =>
            if value ≠ 0 ∧ value ≠ 1 then .error (.mustBeZeroOrOne reg_addr)
            else (collectCoilValues vars (reg_addr + 1) n).map
              (fun rest => decide (value ≠ 0) :: rest)
      else collectCoilValues vars (reg_addr + 1) n

/-! ## Raw frame composer/validator (`send_raw_command`, lines 712-763) -/

/-- The rejections of `send_raw_command` before any transport use, each
mirroring one `messagebox.showerror` exit. -/
inductive RawCmdErr where
  | emptyInput
  | tooShort
  | invalidHexByte (part : List Char)
  | invalidHexValue (part : List Char)
  | invalidSlaveId (v : Int)
  | invalidFunctionCode (v : Int)
deriving DecidableEq

/-- The token loop of `send_raw_command` (lines 731-741): each token
must have exactly 2 characters (else `Invalid hex byte`), then is parsed
with `int(part, 16)` (a `ValueError` gives `Invalid hex value`); the
parsed values are collected in order, stopping at the first failure. -/
def parseRawTokens : List (List Char) → Except RawCmdErr (List Int)
  | [] => .ok []
  | part :: rest =>
      if part.length ≠ 2 then .error (.invalidHexByte part)
      else
        match pyInt16? part with
        | none => .error (.invalidHexValue part)
        | some byte_val => (parseRawTokens rest).map (fun bs => byte_val :: bs)

/-- The validation stage of `send_raw_command` (lines 718-753): strip
the input (empty input is rejected first), split on whitespace, require
at least 2 tokens, parse every token, then range-check the first byte
(slave id, 1-247) and the second byte (function code, 1-127).  On
success the token-derived byte list is returned for CRC appending and
transmission.  `getD` stands for Python's `frame_bytes[0]`/`[1]`, safe
here because at least two tokens each contributed one byte. -/
def send_raw_validate (raw_input : List Char) : Except RawCmdErr (List Int) :=
  let raw := pyStrip raw_input
  if raw = [] then .error .emptyInput
  else
    let hex_parts := pySplitWs raw
    if hex_parts.length < 2 then .error .tooShort
    else
      match parseRawTokens hex_parts with
      | .error e => .error e
      | .ok frame_bytes =>
          let slave_id := frame_bytes.getD 0 0
          let function_code := frame_bytes.getD 1 0
          if slave_id < 1 ∨ slave_id > 247 then .error (.invalidSlaveId slave_id)
          else if function_code < 1 ∨ function_code > 127 then
            .error (.invalidFunctionCode function_code)
          else .ok frame_bytes

/-! ## Settings persistence (`save_settings`, lines 896-919) -/

/-- The `tk.StringVar` attributes the constructor
(`create_widgets`/`create_register_display`) ever assigns on the GUI
object.  `address_var` and `count_var` are referenced by
`save_settings`/`load_settings` but never created anywhere in the
source. -/
structure GuiStringVars where
  port_var : List Char
  baud_var : List Char
  slave_id_var : List Char
  status_var : List Char
  cmd_type_var : List Char
  start_idx_var : List Char
  length_var : List Char
  raw_bytes_var : List Char

/-- Python attribute lookup `self.<name>.get()` over the assigned
`StringVar` attributes; any other name raises `AttributeError`. -/
def getStringVarAttr (g : GuiStringVars) (name : List Char) : Except (List Char) (List Char) :=
  if name = "port_var".toList then .ok g.port_var
  else if name = "baud_var".toList then .ok g.baud_var
  else if name = "slave_id_var".toList then .ok g.slave_id_var
  else if name = "status_var".toList then .ok g.status_var
  else if name = "cmd_type_var".toList then .ok g.cmd_type_var
  else if name = "start_idx_var".toList then .ok g.start_idx_var
  else if name = "length_var".toList then .ok g.length_var
  else if name = "raw_bytes_var".toList then .ok g.raw_bytes_var
  else .error ("AttributeError: ".toList ++ name)

/-- The settings-dict construction of `save_settings` (lines 898-905):
the dict literal evaluates its values in order, reading
`self.port_var`, `self.baud_var`, `self.slave_id_var`,
`self.cmd_type_var`, `self.address_var`, `self.count_var`; the first
failing lookup raises before any file dialog or write happens (the
`try` in the source only wraps the file write). -/
def save_settings (g : GuiStringVars) :
    Except (List Char) (List (List Char × List Char)) := do
  let port ← getStringVarAttr g "port_var".toList
  let baudrate ← getStringVarAttr g "baud_var".toList
  let slave_id ← getStringVarAttr g "slave_id_var".toList
  let command_type ← getStringVarAttr g "cmd_type_var".toList
  let address ← getStringVarAttr g "address_var".toList
  let count ← getStringVarAttr g "count_var".toList
  pure [("port".toList, port), ("baudrate".toList, baudrate),
        ("slave_id".toList, slave_id), ("command_type".toList, command_type),
        ("address".toList, address), ("count".toList, count)]

/-! ## Theorems -/

set_option maxRecDepth 100000

/-- C1 is false as stated: on `[0x01, 0x03, 0x00, 0x00, 0x00, 0x01]`
neither the Frame Builder path nor the Raw Composer path produces the
claimed frame `01 03 00 00 00 01 0A 84` — the CRC bytes appended are
`0x84` then `0x0A`, not `0x0A` then `0x84`. -/
theorem c1_counterexample :
    log_complete_frame [0x01, 0x03, 0x00, 0x00, 0x00, 0x01]
        ≠ [0x01, 0x03, 0x00, 0x00, 0x00, 0x01, 0x0A, 0x84]
    ∧ raw_complete_frame [0x01, 0x03, 0x00, 0x00, 0x00, 0x01]
        ≠ [0x01, 0x03, 0x00, 0x00, 0x00, 0x01, 0x0A, 0x84] := by
  decide

/-- C1 (amended): for `[0x01, 0x03, 0x00, 0x00, 0x00, 0x01]` (the Read
Holding Registers request for slave 1, address 0, quantity 1), both the
Frame Builder path and the Raw Composer path append the CRC as low byte
`0x84` then high byte `0x0A`, yielding the canonical frame
`01 03 00 00 00 01 84 0A`. -/
theorem c1_canonical_crc_append :
    frame_read_holding 1 0 1 = [0x01, 0x03, 0x00, 0x00, 0x00, 0x01]
    ∧ log_complete_frame [0x01, 0x03, 0x00, 0x00, 0x00, 0x01]
        = [0x01, 0x03, 0x00, 0x00, 0x00, 0x01, 0x84, 0x0A]
    ∧ raw_complete_frame [0x01, 0x03, 0x00, 0x00, 0x00, 0x01]
        = [0x01, 0x03, 0x00, 0x00, 0x00, 0x01, 0x84, 0x0A] := by
  decide

/-- C2 is false as stated: on the empty byte sequence `modbus_crc16`
returns `0xFFFFFF`, which is not representable in 16 bits — the source
omits a 16-bit mask on `(crc >> 8) | (crc << 8)`. -/
theorem c2_counterexample :
    modbus_crc16 [] = 0xFFFFFF ∧ 65535 < modbus_crc16 [] := by
  decide

theorem crcBit_lt {crc : Nat} (h : crc < 2 ^ 16) : crcBit crc < 2 ^ 16 := by
  unfold crcBit
  split
  · refine Nat.xor_lt_two_pow ?_ (by norm_num)
    rw [Nat.shiftRight_eq_div_pow]
    exact lt_of_le_of_lt (Nat.div_le_self _ _) h
  · rw [Nat.shiftRight_eq_div_pow]
    exact lt_of_le_of_lt (Nat.div_le_self _ _) h

theorem crcByteStep_lt {crc byte : Nat} (h : crc < 2 ^ 16) (hb : byte < 2 ^ 16) :
    crcByteStep crc byte < 2 ^ 16 := by
  have e : crcByteStep crc byte =
      crcBit (crcBit (crcBit (crcBit (crcBit (crcBit (crcBit (crcBit (crc ^^^ byte)))))))) := rfl
  rw [e]
  exact crcBit_lt (crcBit_lt (crcBit_lt (crcBit_lt (crcBit_lt (crcBit_lt (crcBit_lt
    (crcBit_lt (Nat.xor_lt_two_pow h hb))))))))

theorem crcFold_lt : ∀ (data : List Nat) (crc : Nat), crc < 2 ^ 16 →
    (∀ b ∈ data, b < 256) → data.foldl crcByteStep crc < 2 ^ 16 := by
  intro data
  induction data with
  | nil => intro crc h _; simpa using h
  | cons b rest ih =>
      intro crc h hb
      simp only [List.foldl_cons]
      exact ih _ (crcByteStep_lt h (lt_trans (hb b (by simp)) (by norm_num)))
        (fun x hx => hb x (by simp [hx]))

/-- C2 (amended): `modbus_crc16` is total and raises no error on any
byte sequence, and its result is representable in 24 bits (not 16: the
byte-swap `(crc >> 8) | (crc << 8)` is returned without a 16-bit mask,
and only the low two bytes are meaningful to the callers). -/
theorem c2_crc16_total_bound (data : List Nat) (h : ∀ b ∈ data, b < 256) :
    modbus_crc16 data < 2 ^ 24 := by
  unfold modbus_crc16
  have hc : data.foldl crcByteStep 0xFFFF < 2 ^ 16 := crcFold_lt data _ (by norm_num) h
  apply Nat.or_lt_two_pow
  · rw [Nat.shiftRight_eq_div_pow]
    exact lt_of_le_of_lt (Nat.div_le_self _ _) (lt_trans hc (by norm_num))
  · rw [Nat.shiftLeft_eq]
    calc data.foldl crcByteStep 0xFFFF * 2 ^ 8 < 2 ^ 16 * 2 ^ 8 :=
          (Nat.mul_lt_mul_right (by norm_num)).mpr hc
      _ = 2 ^ 24 := by norm_num

theorem c2_crc16_total_bound_witness :
    modbus_crc16 [0x01, 0x03, 0x00, 0x00, 0x00, 0x01] < 2 ^ 24 :=
  c2_crc16_total_bound [0x01, 0x03, 0x00, 0x00, 0x00, 0x01] (by decide)

/-- C4 is false as stated: entering the broadcast slave id 0 in the raw
path (input `"00 03"`) is rejected by `send_raw_command`'s own
validation (`Invalid slave ID: 0. Must be 1-247`) before any transport
use. -/
theorem c4_counterexample :
    send_raw_validate "00 03".toList = Except.error (RawCmdErr.invalidSlaveId 0) := by
  decide

/-- C4 (amended): the raw-frame path never accepts a first byte of 0 —
every input that passes `send_raw_command`'s validation has a first
byte in `[1, 247]`, so the broadcast value 0 is always rejected before
transmission. -/
theorem c4_accepted_slave_range : ∀ (raw_input : List Char) (bytes : List Int),
    send_raw_validate raw_input = .ok bytes →
    1 ≤ bytes.getD 0 0 ∧ bytes.getD 0 0 ≤ 247 := by
  intro raw bytes h
  simp only [send_raw_validate] at h
  split at h
  · cases h
  · split at h
    · cases h
    · split at h
      · cases h
      · split at h
        · cases h
        · split at h
          · cases h
          · rename_i hsl hfc
            cases h
            constructor <;> omega

theorem c4_accepted_slave_range_witness :
    1 ≤ ([1, 3] : List Int).getD 0 0 ∧ ([1, 3] : List Int).getD 0 0 ≤ 247 :=
  c4_accepted_slave_range "01 03".toList [1, 3] (by decide)

/-- C5 is false as stated: the token `"+1"` is not two hex digits, yet
input `"+1 03"` is not rejected with `MalformedByte` — Python
`int("+1", 16)` parses a sign followed by one hex digit, so the raw
composer accepts the frame as bytes `[1, 3]`. -/
theorem c5_counterexample :
    send_raw_validate "+1 03".toList = Except.ok [1, 3] ∧ hexDigitVal? '+' = none := by
  decide

theorem parseRawTokens_ok_tokens : ∀ (parts : List (List Char)) (bytes : List Int),
    parseRawTokens parts = .ok bytes → ∀ p ∈ parts, p.length = 2 ∧ pyInt16? p ≠ none := by
  intro parts
  induction parts with
  | nil => intro bytes _ p hp; cases hp
  | cons part rest ih =>
      intro bytes h p hp
      unfold parseRawTokens at h
      split at h
      · cases h
      · rcases hpv : pyInt16? part with _ | v
        · rw [hpv] at h; cases h
        · rw [hpv] at h
          rcases hr : parseRawTokens rest with e | bs
          · rw [hr] at h; cases h
          · rcases List.mem_cons.mp hp with hp1 | hp1
            · subst hp1
              rename_i hlen
              refine ⟨by omega, by simp [hpv]⟩
            · exact ih bs hr p hp1

/-- C5 (amended): the raw composer rejects, without any transport call:
`"1"` with TooShort; `"GG 03"` with MalformedByte naming `"GG"`; a
first byte outside `[1, 247]` (for example `"F8 03"`) and a second
byte outside `[1, 127]` (for example `"01 80"`) with OutOfRange naming
the field and value.  Every accepted input's tokens have exactly 2
characters and parse under Python `int(_, 16)` — which means two hex
digits, or a sign character followed by one hex digit (so tokens such
as `"+1"` are accepted rather than rejected as MalformedByte). -/
theorem c5_raw_rejections :
    send_raw_validate "1".toList = Except.error RawCmdErr.tooShort
    ∧ send_raw_validate "GG 03".toList = Except.error (RawCmdErr.invalidHexValue "GG".toList)
    ∧ send_raw_validate "F8 03".toList = Except.error (RawCmdErr.invalidSlaveId 248)
    ∧ send_raw_validate "01 80".toList = Except.error (RawCmdErr.invalidFunctionCode 128)
    ∧ ∀ (raw_input : List Char) (bytes : List Int),
        send_raw_validate raw_input = .ok bytes →
        ∀ p ∈ pySplitWs (pyStrip raw_input), p.length = 2 ∧ pyInt16? p ≠ none := by
  refine ⟨by decide, by decide, by decide, by decide, ?_⟩
  intro raw bytes h
  simp only [send_raw_validate] at h
  split at h
  · cases h
  · split at h
    · cases h
    · split at h
      · cases h
      · rename_i heq
        split at h
        · cases h
        · split at h
          · cases h
          · cases h
            exact parseRawTokens_ok_tokens _ _ heq

theorem c5_raw_rejections_witness :
    "01".toList.length = 2 ∧ pyInt16? "01".toList ≠ none :=
  c5_raw_rejections.2.2.2.2 "01 03".toList [1, 3] (by decide) "01".toList (by decide)

theorem updateRegistersRead_unchanged : ∀ (values : List Nat) (vars : Nat → List Char) (a r : Nat),
    (r < a ∨ a + values.length ≤ r ∨ 64 ≤ r) →
    updateRegistersRead vars a values r = vars r := by
  intro values
  induction values with
  | nil => intro vars a r _; rfl
  | cons v rest ih =>
      intro vars a r hr
      simp only [updateRegistersRead]
      rw [ih]
      · split
        · rename_i ha
          simp only [setRegisterVar]
          rw [if_neg]
          simp only [List.length_cons] at hr
          omega
        · rfl
      · simp only [List.length_cons] at hr
        omega

theorem updateRegistersRead_set : ∀ (values : List Nat) (vars : Nat → List Char) (a i : Nat)
    (h : i < values.length), a + i < 64 →
    updateRegistersRead vars a values (a + i) = hexFormat04X (values.get ⟨i, h⟩) := by
  intro values
  induction values with
  | nil => intro vars a i h _; cases h
  | cons v rest ih =>
      intro vars a i h hlt
      simp only [updateRegistersRead]
      cases i with
      | zero =>
          rw [updateRegistersRead_unchanged]
          · have ha : a < 64 := by omega
            rw [if_pos ha]
            simp [setRegisterVar]
          · omega
      | succ j =>
          have e : a + (j + 1) = (a + 1) + j := by omega
          rw [e, ih _ (a + 1) j (by simpa using h) (by omega)]
          rw [List.get_cons_succ]

theorem updateCoilsRead_eq_map : ∀ (bits : List Bool) (vars : Nat → List Char) (a : Nat),
    updateCoilsRead vars a bits
      = updateRegistersRead vars a (bits.map (fun b => if b then 1 else 0)) := by
  intro bits
  induction bits with
  | nil => intro vars a; rfl
  | cons b rest ih =>
      intro vars a
      simp only [updateCoilsRead, List.map_cons, updateRegistersRead]
      rw [ih]

/-- C3 is false as stated: the update range is driven by the size of
the returned collection, not by the requested `length`.  A successful
Read Coils of length 1 at address 0 whose transport result carries 8
bits (as PyModbus bit responses do, padded to a byte) mutates slot 1,
which lies outside `[0, 0 + 1)`. -/
theorem c3_counterexample :
    (handle_register_result (AppState.mk (fun _ => []) [] [])
        (MBResult.okCoils [false, false, false, false, false, false, false, false])
        "Read Coils".toList 0 1 true []).registerVars 1 = "0x0000".toList
    ∧ (AppState.mk (fun _ => []) [] []).registerVars 1 ≠ "0x0000".toList := by
  constructor <;> decide

/-- C3 (amended): on a successful read the slots that receive the
returned values are exactly `[startAddress, startAddress + n) ∩ [0, 64)`
where `n` is the size of the collection the transport returned, and
every slot outside that set is unchanged.  When the transport returns
exactly `length` values (the requested count), this is the claimed
range `[startAddress, startAddress + length)`. -/
theorem c3_read_update :
    (∀ (st : AppState) (cmd_type : List Char) (start_idx length : Nat) (values regs : List Nat)
        (i : Nat) (h : i < regs.length),
        strIn "Register".toList cmd_type = true → start_idx + i < 64 →
        (handle_register_result st (.okRegisters regs) cmd_type start_idx length true
            values).registerVars (start_idx + i)
          = hexFormat04X (regs.get ⟨i, h⟩))
    ∧ (∀ (st : AppState) (cmd_type : List Char) (start_idx length : Nat) (values regs : List Nat)
        (r : Nat),
        strIn "Register".toList cmd_type = true →
        (r < start_idx ∨ start_idx + regs.length ≤ r ∨ 64 ≤ r) →
        (handle_register_result st (.okRegisters regs) cmd_type start_idx length true
            values).registerVars r = st.registerVars r)
    ∧ (∀ (st : AppState) (cmd_type : List Char) (start_idx length : Nat) (values : List Nat)
        (bits : List Bool) (i : Nat) (h : i < bits.length),
        strIn "Register".toList cmd_type = false → start_idx + i < 64 →
        (handle_register_result st (.okCoils bits) cmd_type start_idx length true
            values).registerVars (start_idx + i)
          = hexFormat04X (if bits.get ⟨i, h⟩ then 1 else 0))
    ∧ (∀ (st : AppState) (cmd_type : List Char) (start_idx length : Nat) (values : List Nat)
        (bits : List Bool) (r : Nat),
        strIn "Register".toList cmd_type = false →
        (r < start_idx ∨ start_idx + bits.length ≤ r ∨ 64 ≤ r) →
        (handle_register_result st (.okCoils bits) cmd_type start_idx length true
            values).registerVars r = st.registerVars r) := by
  refine ⟨?_, ?_, ?_, ?_⟩
  · intro st cmd start_idx length values regs i h hc hlt
    simp only [handle_register_result, hc, if_true, logMsg]
    exact updateRegistersRead_set regs st.registerVars start_idx i h hlt
  · intro st cmd start_idx length values regs r hc hr
    simp only [handle_register_result, hc, if_true, logMsg]
    exact updateRegistersRead_unchanged regs st.registerVars start_idx r hr
  · intro st cmd start_idx length values bits i h hc hlt
    simp only [handle_register_result, hc, Bool.false_eq_true, if_false, if_true, logMsg]
    rw [updateCoilsRead_eq_map]
    have h2 : i < (bits.map (fun b => if b then (1 : Nat) else 0)).length := by simpa using h
    rw [updateRegistersRead_set _ st.registerVars start_idx i h2 hlt]
    congr 1
    simp [List.get_eq_getElem, List.getElem_map]
  · intro st cmd start_idx length values bits r hc hr
    simp only [handle_register_result, hc, Bool.false_eq_true, if_false, if_true, logMsg]
    rw [updateCoilsRead_eq_map]
    exact updateRegistersRead_unchanged _ st.registerVars start_idx r (by simpa using hr)

theorem c3_read_update_witness :
    (handle_register_result (AppState.mk (fun _ => []) [] []) (.okRegisters [5])
        "Read Holding Registers".toList 0 1 true []).registerVars (0 + 0)
      = hexFormat04X ([5].get ⟨0, by decide⟩) :=
  c3_read_update.1 (AppState.mk (fun _ => []) [] []) "Read Holding Registers".toList 0 1 [] [5]
    0 (by decide) (by decide) (by decide)

theorem boolEq_iff (a b : Bool) : a = b ↔ (a = true ↔ b = true) := by
  cases a <;> cases b <;> simp

theorem foldOrBits_testBit (p : Nat → Prop) [DecidablePred p] :
    ∀ (m a j : Nat),
      (((List.range m).foldl (fun acc t => if p t then acc ||| (1 <<< t) else acc) a).testBit j
          = true)
        ↔ (a.testBit j = true ∨ (j < m ∧ p j)) := by
  intro m
  induction m with
  | zero => intro a j; simp
  | succ m ih =>
      intro a j
      rw [List.range_succ m, List.foldl_append]
      simp only [List.foldl_cons, List.foldl_nil]
      have hpow : ((2 : Nat) ^ m).testBit j = true ↔ m = j := by
        rcases eq_or_ne m j with h | h
        · simp [h, Nat.testBit_two_pow_self]
        · simp [h, Nat.testBit_two_pow_of_ne h]
      by_cases hpm : p m
      · rw [if_pos hpm, Nat.testBit_or, Nat.shiftLeft_eq, one_mul, Bool.or_eq_true, ih, hpow]
        constructor
        · rintro ((h | h) | h)
          · exact Or.inl h
          · exact Or.inr ⟨by omega, h.2⟩
          · subst h; exact Or.inr ⟨by omega, hpm⟩
        · rintro (h | ⟨hj, hpj⟩)
          · exact Or.inl (Or.inl h)
          · by_cases hjm : j = m
            · subst hjm; exact Or.inr rfl
            · exact Or.inl (Or.inr ⟨by omega, hpj⟩)
      · rw [if_neg hpm, ih]
        constructor
        · rintro (h | h)
          · exact Or.inl h
          · exact Or.inr ⟨by omega, h.2⟩
        · rintro (h | ⟨hj, hpj⟩)
          · exact Or.inl h
          · have : j ≠ m := fun e => hpm (e ▸ hpj)
            exact Or.inr ⟨by omega, hpj⟩

theorem packCoilsByte_testBit (values : List Bool) (n i j : Nat) :
    (packCoilsByte values n i).testBit j
      = (decide (j < 8) && (decide (i + j < n) && values.getD (i + j) false)) := by
  rw [boolEq_iff]
  unfold packCoilsByte
  rw [foldOrBits_testBit (fun t => i + t < n ∧ values.getD (i + t) false = true)]
  simp only [Nat.zero_testBit, false_or, Bool.and_eq_true, decide_eq_true_eq]
  tauto

theorem packCoils_getD (values : List Bool) (length k : Nat) (hk : k < (length + 7) / 8) :
    (packCoils values length).getD k 0 = packCoilsByte values length (8 * k) := by
  unfold packCoils
  rw [List.getD_eq_getElem?_getD]
  simp [List.getElem?_map, List.getElem?_range, hk]

/-- C6: for every length in `[1, 64]` and every boolean coil list of
that length, the Write Coils frame carries a byte-count byte (frame
index 6) equal to `ceil(length / 8)`, followed by the coils packed
LSB-first: bit `j` of packed byte `k` (frame index `7 + k`) is coil
`8*k + j` when that index is below `length`, and `0` otherwise — so
unused high bits of the final byte are left 0.  In particular the coils
`[1,0,1,1,0,0,0,0]` pack into the single byte `0x0D`. -/
theorem c6_write_coils_packing :
    (∀ (slave_id start_idx length : Nat) (values : List Bool),
        1 ≤ length → length ≤ 64 → values.length = length →
        (frame_write_coils slave_id start_idx length values).getD 6 0 = (length + 7) / 8
        ∧ ∀ k j, k < (length + 7) / 8 → j < 8 →
            ((frame_write_coils slave_id start_idx length values).getD (7 + k) 0).testBit j
              = (decide (8 * k + j < length) && values.getD (8 * k + j) false))
    ∧ packCoils [true, false, true, true, false, false, false, false] 8 = [0x0D] := by
  constructor
  · intro slave_id start_idx length values h1 h64 hlen
    constructor
    · rfl
    · intro k j hk hj
      have hdrop : (frame_write_coils slave_id start_idx length values).getD (7 + k) 0
          = (packCoils values length).getD k 0 := by
        unfold frame_write_coils
        rw [List.getD_eq_getElem?_getD, List.getElem?_append_right (by simp)]
        simp [List.getD_eq_getElem?_getD]
      rw [hdrop, packCoils_getD values length k hk, packCoilsByte_testBit]
      simp [hj]
  · decide

theorem c6_write_coils_packing_witness :
    (frame_write_coils 1 0 8 [true, false, true, true, false, false, false, false]).getD 6 0
      = (8 + 7) / 8 :=
  (c6_write_coils_packing.1 1 0 8 [true, false, true, true, false, false, false, false]
    (by decide) (by decide) (by decide)).1

/-- C7: when the transport reports an error result, the handler appends
no history entry and mutates no register slot (it only emits log
lines); and any history entry the handler ever appends has
`success = true`, so the history records successes only. -/
theorem c7_error_no_mutation :
    (∀ (st : AppState) (msg cmd_type : List Char) (start_idx length : Nat) (is_read : Bool)
        (values : List Nat),
        (handle_register_result st (.error msg) cmd_type start_idx length is_read values).history
          = st.history
      ∧ (handle_register_result st (.error msg) cmd_type start_idx length is_read
            values).registerVars = st.registerVars)
    ∧ (∀ (st : AppState) (result : MBResult) (cmd_type : List Char) (start_idx length : Nat)
        (is_read : Bool) (values : List Nat) (e : HistoryEntry),
        e ∈ (handle_register_result st result cmd_type start_idx length is_read values).history →
        e ∈ st.history ∨ e.success = true) := by
  constructor
  · intro st msg cmd start len ir v
    constructor <;> simp [handle_register_result, logMsg]
  · intro st result cmd start len ir v e he
    cases result with
    | error msg =>
        simp only [handle_register_result, logMsg] at he
        exact Or.inl he
    | okRegisters regs =>
        simp only [handle_register_result, logMsg] at he
        split at he
        · split at he
          · rcases List.mem_append.mp he with h1 | h1
            · exact Or.inl h1
            · simp at h1; subst h1; exact Or.inr rfl
          · exact Or.inl he
        · rcases List.mem_append.mp he with h1 | h1
          · exact Or.inl h1
          · simp at h1; subst h1; exact Or.inr rfl
    | okCoils bits =>
        simp only [handle_register_result, logMsg] at he
        split at he
        · split at he
          · exact Or.inl he
          · rcases List.mem_append.mp he with h1 | h1
            · exact Or.inl h1
            · simp at h1; subst h1; exact Or.inr rfl
        · rcases List.mem_append.mp he with h1 | h1
          · exact Or.inl h1
          · simp at h1; subst h1; exact Or.inr rfl

theorem c7_error_no_mutation_witness :
    (⟨0, 1, [], true⟩ : HistoryEntry) ∈ (AppState.mk (fun _ => []) [] []).history
      ∨ (⟨0, 1, [], true⟩ : HistoryEntry).success = true :=
  c7_error_no_mutation.2 (AppState.mk (fun _ => []) [] []) (.okRegisters [])
    "Read Holding Registers".toList 0 1 true [] ⟨0, 1, [], true⟩ (by decide)

/-- C8 is false as stated: the round-trip fails for hex inputs longer
than 4 digits. Input `"12345"` (value `0x12345`) commits to `"0x1234"`,
which re-parses to `0x1234`, not `0x12345`. -/
theorem c8_counterexample :
    pad_hex_input "12345".toList = "0x1234".toList
    ∧ pyInt16? "12345".toList = some 0x12345
    ∧ pyInt16? (pad_hex_input "12345".toList) = some 0x1234
    ∧ (0x1234 : Int) ≠ 0x12345 := by
  decide

/-- C10: the save-settings operation never writes the settings object —
for every GUI state, building the settings dict reads
`self.address_var`, an attribute no code path ever creates (the widgets
define `start_idx_var`/`length_var` instead), so `save_settings` raises
`AttributeError` before any file dialog or write. -/
theorem c10_save_settings_attribute_error (g : GuiStringVars) :
    save_settings g = Except.error ("AttributeError: address_var".toList) := by
  rfl

theorem c10_save_settings_attribute_error_witness :
    save_settings ⟨[], [], [], [], [], [], [], []⟩
      = Except.error ("AttributeError: address_var".toList) :=
  c10_save_settings_attribute_error ⟨[], [], [], [], [], [], [], []⟩

theorem dropWhile_eq_self_of (p : Char → Bool) (l : List Char) (h : ∀ c ∈ l, p c = false) :
    l.dropWhile p = l := by
  cases l with
  | nil => rfl
  | cons a t =>
      rw [List.dropWhile_cons_of_neg]
      simp [h a (by simp)]

theorem pyStrip_eq_self (s : List Char) (h : ∀ c ∈ s, c.isWhitespace = false) :
    pyStrip s = s := by
  unfold pyStrip
  rw [dropWhile_eq_self_of _ _ h,
      dropWhile_eq_self_of _ _ (fun c hc => h c (List.mem_reverse.mp hc)),
      List.reverse_reverse]

theorem hexChar_facts : ∀ c ∈ "0123456789abcdefABCDEF".toList,
    Char.toUpper c ∈ "0123456789ABCDEF".toList
    ∧ hexDigitVal? (Char.toUpper c) = hexDigitVal? c
    ∧ c.isWhitespace = false
    ∧ c ≠ '+' ∧ c ≠ '-' ∧ c ≠ 'x' ∧ c ≠ 'X'
    ∧ Char.toUpper c ≠ 'X' := by decide

theorem hexUpperChar_facts : ∀ c ∈ "0123456789ABCDEF".toList,
    c.isWhitespace = false := by decide

theorem digitsVal?_zfill_pad (k : Nat) (u : List Char) (hu : u ≠ []) :
    digitsVal? hexDigitVal? 16 (List.replicate k '0' ++ u) = digitsVal? hexDigitVal? 16 u := by
  unfold digitsVal?
  rw [if_neg (by simp [hu]), if_neg hu, List.foldl_append]
  congr 1
  induction k with
  | zero => rfl
  | succ n ih =>
      rw [List.replicate_succ, List.foldl_cons]
      exact ih

theorem digitsFold_upper : ∀ (s : List Char) (acc : Option Nat),
    (∀ c ∈ s, hexDigitVal? (Char.toUpper c) = hexDigitVal? c) →
    (pyUpper s).foldl
        (fun acc c =>
          match acc, hexDigitVal? c with
          | some a, some d => some (16 * a + d)
          | _, _ => none) acc
      = s.foldl
        (fun acc c =>
          match acc, hexDigitVal? c with
          | some a, some d => some (16 * a + d)
          | _, _ => none) acc := by
  intro s
  induction s with
  | nil => intro acc _; rfl
  | cons c t ih =>
      intro acc h
      simp only [pyUpper, List.map_cons, List.foldl_cons]
      rw [h c (by simp)]
      exact ih _ (fun d hd => h d (by simp [hd]))

theorem digitsVal?_upper (s : List Char)
    (h : ∀ c ∈ s, hexDigitVal? (Char.toUpper c) = hexDigitVal? c) :
    digitsVal? hexDigitVal? 16 (pyUpper s) = digitsVal? hexDigitVal? 16 s := by
  unfold digitsVal?
  rcases eq_or_ne s [] with rfl | hs
  · rfl
  · rw [if_neg (by simp [pyUpper, hs]), if_neg hs]
    exact digitsFold_upper s (some 0) h

theorem pad_hex_input_reduce (s : List Char)
    (hs : ∀ c ∈ s, c ∈ "0123456789abcdefABCDEF".toList)
    (h1 : 1 ≤ s.length) (h4 : s.length ≤ 4) :
    pad_hex_input s = '0' :: 'x' :: zfill 4 (pyUpper s) := by
  unfold pad_hex_input
  have hpref : ['0', 'X'].isPrefixOf (pyUpper s) = false := by
    cases s with
    | nil => rfl
    | cons c t =>
        cases t with
        | nil => simp [pyUpper, List.isPrefixOf]
        | cons c2 t2 =>
            have hx := (hexChar_facts c2 (hs c2 (by simp))).2.2.2.2.2.2.2
            have hb : ('X' == Char.toUpper c2) = false :=
              beq_eq_false_iff_ne.mpr (Ne.symm hx)
            simp [pyUpper, List.isPrefixOf, hb]
  have hfil : (pyUpper s).filter (fun c => "0123456789ABCDEF".toList.contains c) = pyUpper s := by
    refine List.filter_eq_self.mpr ?_
    intro c hc
    rcases List.mem_map.mp hc with ⟨d, hd, rfl⟩
    have := (hexChar_facts d (hs d hd)).1
    simpa using this
  have hlen : (pyUpper s).length = s.length := by simp [pyUpper]
  simp only [hpref, Bool.false_eq_true, if_false, hfil]
  rw [if_neg (by omega), if_pos (by omega)]

theorem pyInt16?_prefixed (w : List Char) (hnw : ∀ c ∈ w, c.isWhitespace = false) :
    pyInt16? ('0' :: 'x' :: w) = (digitsVal? hexDigitVal? 16 w).map (fun n => (n : Int)) := by
  unfold pyInt16?
  rw [pyStrip_eq_self _ ?hws]
  case hws =>
    intro c hc
    rcases List.mem_cons.mp hc with rfl | hc
    · decide
    · rcases List.mem_cons.mp hc with rfl | hc
      · decide
      · exact hnw c hc
  simp only []
  rw [if_neg (by decide), if_neg (by decide)]
  rfl

theorem pyInt16?_plain (s : List Char) (hs : ∀ c ∈ s, c ∈ "0123456789abcdefABCDEF".toList)
    (h1 : 1 ≤ s.length) :
    pyInt16? s = (digitsVal? hexDigitVal? 16 s).map (fun n => (n : Int)) := by
  cases s with
  | nil => simp at h1
  | cons c rest =>
      have hc := hexChar_facts c (hs c (by simp))
      unfold pyInt16?
      rw [pyStrip_eq_self _ (fun d hd => (hexChar_facts d (hs d hd)).2.2.1)]
      simp only []
      rw [if_neg hc.2.2.2.1, if_neg hc.2.2.2.2.1]
      congr 1
      cases rest with
      | nil => rfl
      | cons c2 t =>
          have h2 := hexChar_facts c2 (hs c2 (by simp))
          have hd : dropHexMarker (c :: c2 :: t)
              = if c = '0' ∧ (c2 = 'x' ∨ c2 = 'X') then t else c :: c2 :: t := rfl
          rw [hd, if_neg]
          rintro ⟨h0, hx⟩
          rcases hx with hx | hx
          · exact h2.2.2.2.2.2.1 hx
          · exact h2.2.2.2.2.2.2.1 hx

theorem pad_roundtrip_main (s : List Char)
    (hs : ∀ c ∈ s, c ∈ "0123456789abcdefABCDEF".toList)
    (h1 : 1 ≤ s.length) (h4 : s.length ≤ 4) :
    pyInt16? (pad_hex_input s) = pyInt16? s := by
  have hlen : (pyUpper s).length = s.length := by simp [pyUpper]
  have hu_ne : pyUpper s ≠ [] := by
    intro h
    rw [h] at hlen
    simp at hlen
    omega
  rw [pad_hex_input_reduce s hs h1 h4]
  rw [pyInt16?_prefixed (zfill 4 (pyUpper s)) ?nw]
  case nw =>
    intro c hc
    rcases List.mem_append.mp hc with hc | hc
    · rw [List.eq_of_mem_replicate hc]; decide
    · rcases List.mem_map.mp hc with ⟨d, hd, rfl⟩
      exact hexUpperChar_facts _ (hexChar_facts d (hs d hd)).1
  rw [show zfill 4 (pyUpper s)
        = List.replicate (4 - (pyUpper s).length) '0' ++ pyUpper s from rfl]
  rw [digitsVal?_zfill_pad _ _ hu_ne]
  rw [digitsVal?_upper s (fun c hc => (hexChar_facts c (hs c hc)).2.1)]
  rw [← pyInt16?_plain s hs h1]

/-- C8 (amended): committing a register slot's hex text normalizes it to
the canonical `0x`-prefixed 4-digit uppercase form, an empty field maps
to `"0x0000"`, and the round-trip holds for every hex input of at most
4 hex digits: committing then re-parsing the committed text with
Python `int(_, 16)` yields the same integer as parsing the input (past
4 digits the committed text is truncated, so the value is not
preserved there).  The example of the claim: `"1a"` commits to
`"0x001A"`. -/
theorem c8_commit_roundtrip :
    (∀ s : List Char, (∀ c ∈ s, c ∈ "0123456789abcdefABCDEF".toList) →
        1 ≤ s.length → s.length ≤ 4 →
        pyInt16? (pad_hex_input s) = pyInt16? s)
    ∧ pad_hex_input [] = "0x0000".toList
    ∧ pad_hex_input "1a".toList = "0x001A".toList := by
  exact ⟨pad_roundtrip_main, by decide, by decide⟩

theorem c8_commit_roundtrip_witness :
    pyInt16? (pad_hex_input "1a".toList) = pyInt16? "1a".toList :=
  c8_commit_roundtrip.1 "1a".toList (by decide) (by decide) (by decide)

theorem clear_rejected (vars : Nat → List Char) (r : Nat) (hr : r < 64) :
    pyIntDec? (clear_all_registers vars r) = none := by
  unfold clear_all_registers
  rw [if_pos hr]
  decide

theorem coilText_rejected (b : Bool) :
    pyIntDec? (hexFormat04X (if b then 1 else 0)) = none := by
  cases b <;> decide

theorem updateCoilsRead_rejected : ∀ (bits : List Bool) (vars : Nat → List Char) (a : Nat),
    (∀ r, r < 64 → pyIntDec? (vars r) = none) →
    ∀ r, r < 64 → pyIntDec? (updateCoilsRead vars a bits r) = none := by
  intro bits
  induction bits with
  | nil => intro vars a h r hr; exact h r hr
  | cons b rest ih =>
      intro vars a h r hr
      simp only [updateCoilsRead]
      refine ih _ (a + 1) ?_ r hr
      intro q hq
      split
      · simp only [setRegisterVar]
        split
        · exact coilText_rejected b
        · exact h q hq
      · exact h q hq

theorem collect_fails : ∀ (length : Nat) (vars : Nat → List Char) (start_idx : Nat),
    1 ≤ length → start_idx + length ≤ 64 →
    (∀ r, r < 64 → pyIntDec? (vars r) = none) →
    collectCoilValues vars start_idx length = .error (.invalidValue start_idx) := by
  intro length vars start_idx h1 h64 hv
  cases length with
  | zero => omega
  | succ n =>
      simp only [collectCoilValues]
      rw [if_pos (by omega : start_idx < 64), hv start_idx (by omega)]

/-- C9: the Write Coils collection parses each slot text with base-10
`int` and accepts only 0 or 1, so the canonical texts `"0x0000"` and
`"0x0001"` — which Clear writes into every slot and successful coil
reads write into the read range — are rejected with an error naming the
slot.  Consequently, for every valid address and length, a Write Coils
issued on the bank left by Clear, or by Clear followed by any coil
read, fails validation at its first slot before any transport call. -/
theorem c9_write_coils_rejects_bank_texts :
    (pyIntDec? "0x0000".toList = none ∧ pyIntDec? "0x0001".toList = none)
    ∧ (∀ (vars : Nat → List Char) (start_idx length : Nat),
        1 ≤ length → start_idx + length ≤ 64 →
        collectCoilValues (clear_all_registers vars) start_idx length
          = .error (.invalidValue start_idx))
    ∧ (∀ (vars : Nat → List Char) (read_start : Nat) (bits : List Bool)
        (start_idx length : Nat),
        1 ≤ length → start_idx + length ≤ 64 →
        collectCoilValues (updateCoilsRead (clear_all_registers vars) read_start bits)
            start_idx length
          = .error (.invalidValue start_idx)) := by
  refine ⟨⟨by decide, by decide⟩, ?_, ?_⟩
  · intro vars start_idx length h1 h64
    exact collect_fails length _ start_idx h1 h64 (clear_rejected vars)
  · intro vars read_start bits start_idx length h1 h64
    exact collect_fails length _ start_idx h1 h64
      (updateCoilsRead_rejected bits _ read_start (clear_rejected vars))

theorem c9_write_coils_rejects_bank_texts_witness :
    collectCoilValues (clear_all_registers (fun _ => [])) 0 1
      = .error (.invalidValue 0) :=
  c9_write_coils_rejects_bank_texts.2.1 (fun _ => []) 0 1 (by decide) (by decide)

end MbSim
